import Mathlib

/-!
# Verification of the mqttie MQTT client library (alfrunes/mqttie)

This development shallowly embeds the wire codec and the client session
logic of the mqttie repository and proves or refutes the specification
claims about it.

Conventions of the embedding:

* A byte stream is a `List Nat`; every entry denotes one byte.  Where Go
  guarantees a value is a `byte`/`uint8`/`uint16`, arithmetic is taken
  modulo the corresponding power of two exactly where the Go code
  truncates.
* Bitwise operations of the source on byte values are rendered
  arithmetically: for any natural `b`, `b & 0x7F = b % 128` and
  `b & 0x80 == 0 ↔ b % 256 < 128`, so the renderings agree with the
  source on all inputs.
* Go's `(value, n, err)` returns become `Except MErr (value × n)`; an
  `error` result carries the distinguished error that the code returns.
  Reads from an exhausted stream surface as `MErr.eof` (the transport
  EOF of the `bytes.Buffer`/`net.Conn` reader).
-/

/-- Errors returned by the mqttie codec and client, mirroring the
distinguished `error` values of the Go code. -/
inductive MErr : Type where
  /-- `mqtt.ErrPacketShort` -/
  | packetShort
  /-- `mqtt.ErrPacketLong` -/
  | packetLong
  /-- `util.ErrVarintTooLong` ("varint too long: > 4 bytes") -/
  | varintTooLong
  /-- `io.ErrUnexpectedEOF` -/
  | unexpectedEOF
  /-- end of stream / transport error while reading -/
  | eof
  /-- `fmt.Errorf` protocol errors (illegal flags, unknown protocol, ...) -/
  | protocolError
  /-- "UTF-8 string too long" -/
  | stringTooLong
  /-- encoder buffer overflow ("packet too large" / PutUvarint panic) -/
  | packetTooLarge
  deriving Repr, DecidableEq

/-! ## Varint codec (`util.EncodeUvarint`, `util.GetUvarintLen`,
`util.ReadVarint`)

`EncodeUvarint` delegates to Go's `binary.PutUvarint`, which emits the
value in little-endian base-128 groups, setting the high bit of every
byte except the last. -/

/-- The byte sequence produced by `binary.PutUvarint` (the body of
`util.EncodeUvarint`). -/
def putUvarint (v : Nat) : List Nat :=
  if v < 128 then [v]
  else (v % 128 + 128) :: putUvarint (v / 128)
  decreasing_by exact Nat.div_lt_self (by omega) (by omega)

/-- `util.GetUvarintLen`: the number of base-128 digits of `val`,
computed by the do-while loop `length++; val /= 128; until val < 1`. -/
def getUvarintLen (v : Nat) : Nat :=
  if v < 128 then 1
  else 1 + getUvarintLen (v / 128)
  decreasing_by exact Nat.div_lt_self (by omega) (by omega)

/-- The loop body of `util.ReadVarint`: `shifts` holds the remaining
values of the loop counter `i` (`[0, 7, 14, 21]` initially); `v` and
`n` are the accumulated value and byte count.  Each iteration reads one
byte `b`, adds `(b & 0x7F) << i`, and stops when `b & 0x80 == 0`.
Exhausting the loop returns `ErrVarintTooLong`. -/
def readVarintGo (v n : Nat) (s : List Nat) : List Nat → Except MErr (Nat × Nat)
  | [] => .error .varintTooLong
  | i :: is =>
    match s with
    | [] => .error .eof
    | b :: rest =>
      let v' := v + (b % 128) * 2 ^ i
      if b % 256 < 128 then .ok (v', n + 1)
      else readVarintGo v' (n + 1) rest is

/-- `util.ReadVarint` (the current, base-128 decoder of
`src/unnamed/part_006`, shifting by 7 per byte over at most 4 bytes). -/
def readVarint (s : List Nat) : Except MErr (Nat × Nat) :=
  readVarintGo 0 0 s [0, 7, 14, 21]

/-- All bytes emitted by `putUvarint` are bytes (< 256). -/
theorem putUvarint_lt_256 (v : Nat) : ∀ b ∈ putUvarint v, b < 256 := by
  intro b hb
  induction v using Nat.strong_induction_on with
  | _ v ih =>
    rw [putUvarint] at hb
    by_cases h : v < 128
    · simp [h] at hb; omega
    · simp [h] at hb
      rcases hb with hb | hb
      · omega
      · exact ih (v / 128) (Nat.div_lt_self (by omega) (by omega)) hb

theorem putUvarint_length (v : Nat) :
    (putUvarint v).length = getUvarintLen v := by
  induction v using Nat.strong_induction_on with
  | _ v ih =>
    rw [putUvarint, getUvarintLen]
    by_cases h : v < 128
    · simp [h]
    · simp [h]
      rw [ih (v / 128) (Nat.div_lt_self (by omega) (by omega))]
      omega

theorem getUvarintLen_le_four (v : Nat) (h : v ≤ 268435455) :
    1 ≤ getUvarintLen v ∧ getUvarintLen v ≤ 4 := by
  rw [getUvarintLen]
  by_cases h1 : v < 128
  · simp [h1]
  · rw [getUvarintLen]
    by_cases h2 : v / 128 < 128
    · simp [h1, h2]
    · rw [getUvarintLen]
      by_cases h3 : v / 128 / 128 < 128
      · simp [h1, h2, h3]
      · rw [getUvarintLen]
        have h4 : v / 128 / 128 / 128 < 128 := by omega
        simp [h1, h2, h3, h4]

theorem readVarint_putUvarint (v : Nat) (h : v ≤ 268435455) :
    readVarint (putUvarint v) = .ok (v, getUvarintLen v) := by
  by_cases h1 : v < 128
  · have e : putUvarint v = [v] := by rw [putUvarint]; simp [h1]
    have g : getUvarintLen v = 1 := by rw [getUvarintLen]; simp [h1]
    have c0 : v % 256 < 128 := by omega
    rw [e, g]
    simp [readVarint, readVarintGo, c0]
    omega
  · by_cases h2 : v < 16384
    · have e : putUvarint v = [v % 128 + 128, v / 128] := by
        rw [putUvarint]; simp [h1]
        rw [putUvarint]; simp [show v / 128 < 128 by omega]
      have g : getUvarintLen v = 2 := by
        rw [getUvarintLen]; simp [h1]
        rw [getUvarintLen]; simp [show v / 128 < 128 by omega]
      have c0 : ¬(v % 128 + 128) % 256 < 128 := by omega
      have c1 : (v / 128) % 256 < 128 := by omega
      rw [e, g]
      simp [readVarint, readVarintGo, c0, c1]
      omega
    · by_cases h3 : v < 2097152
      · have e : putUvarint v =
            [v % 128 + 128, v / 128 % 128 + 128, v / 128 / 128] := by
          rw [putUvarint]; simp [h1]
          rw [putUvarint]; simp [show ¬v / 128 < 128 by omega]
          rw [putUvarint]; simp [show v / 128 / 128 < 128 by omega]
        have g : getUvarintLen v = 3 := by
          rw [getUvarintLen]; simp [h1]
          rw [getUvarintLen]; simp [show ¬v / 128 < 128 by omega]
          rw [getUvarintLen]; simp [show v / 128 / 128 < 128 by omega]
        have c0 : ¬(v % 128 + 128) % 256 < 128 := by omega
        have c1 : ¬(v / 128 % 128 + 128) % 256 < 128 := by omega
        have c2 : (v / 128 / 128) % 256 < 128 := by omega
        rw [e, g]
        simp [readVarint, readVarintGo, c0, c1, c2]
        omega
      · have e : putUvarint v =
            [v % 128 + 128, v / 128 % 128 + 128, v / 128 / 128 % 128 + 128,
             v / 128 / 128 / 128] := by
          rw [putUvarint]; simp [h1]
          rw [putUvarint]; simp [show ¬v / 128 < 128 by omega]
          rw [putUvarint]; simp [show ¬v / 128 / 128 < 128 by omega]
          rw [putUvarint]; simp [show v / 128 / 128 / 128 < 128 by omega]
        have g : getUvarintLen v = 4 := by
          rw [getUvarintLen]; simp [h1]
          rw [getUvarintLen]; simp [show ¬v / 128 < 128 by omega]
          rw [getUvarintLen]; simp [show ¬v / 128 / 128 < 128 by omega]
          rw [getUvarintLen]; simp [show v / 128 / 128 / 128 < 128 by omega]
        have c0 : ¬(v % 128 + 128) % 256 < 128 := by omega
        have c1 : ¬(v / 128 % 128 + 128) % 256 < 128 := by omega
        have c2 : ¬(v / 128 / 128 % 128 + 128) % 256 < 128 := by omega
        have c3 : (v / 128 / 128 / 128) % 256 < 128 := by omega
        rw [e, g]
        simp [readVarint, readVarintGo, c0, c1, c2, c3]
        omega

theorem readVarint_continuation (b0 b1 b2 b3 : Nat) (rest : List Nat)
    (h0 : 128 ≤ b0 % 256) (h1 : 128 ≤ b1 % 256) (h2 : 128 ≤ b2 % 256)
    (h3 : 128 ≤ b3 % 256) :
    readVarint (b0 :: b1 :: b2 :: b3 :: rest) =
      Except.error MErr.varintTooLong := by
  simp [readVarint, readVarintGo, Nat.not_lt.mpr h0, Nat.not_lt.mpr h1,
    Nat.not_lt.mpr h2, Nat.not_lt.mpr h3]

/-- C7: for every value `v ≤ 268 435 455`, encoding the remaining-length
varint (`util.EncodeUvarint`, i.e. `binary.PutUvarint`) writes
`GetUvarintLen v` bytes, a number in `[1, 4]`, and `util.ReadVarint`
decodes those bytes back to `v`; any stream whose first four bytes all
have the continuation (high) bit set is rejected with
`ErrVarintTooLong`. -/
theorem varint_roundtrip_bounded (v : Nat) (h : v ≤ 268435455) :
    (putUvarint v).length = getUvarintLen v ∧
    1 ≤ getUvarintLen v ∧ getUvarintLen v ≤ 4 ∧
    readVarint (putUvarint v) = .ok (v, getUvarintLen v) ∧
    (∀ b0 b1 b2 b3 rest, 128 ≤ b0 % 256 → 128 ≤ b1 % 256 →
      128 ≤ b2 % 256 → 128 ≤ b3 % 256 →
      readVarint (b0 :: b1 :: b2 :: b3 :: rest) =
        Except.error MErr.varintTooLong) :=
  ⟨putUvarint_length v, (getUvarintLen_le_four v h).1,
   (getUvarintLen_le_four v h).2, readVarint_putUvarint v h,
   fun b0 b1 b2 b3 rest h0 h1 h2 h3 =>
     readVarint_continuation b0 b1 b2 b3 rest h0 h1 h2 h3⟩

/-- Witness for C7 at the maximal encodable value and at the stream
`FF FF FF FF`. -/
theorem varint_roundtrip_bounded_witness :
    readVarint (putUvarint 268435455) =
      .ok (268435455, getUvarintLen 268435455) ∧
    readVarint [255, 255, 255, 255] = Except.error MErr.varintTooLong :=
  ⟨(varint_roundtrip_bounded 268435455 (by norm_num)).2.2.2.1,
   (varint_roundtrip_bounded 268435455 (by norm_num)).2.2.2.2
     255 255 255 255 [] (by norm_num) (by norm_num) (by norm_num)
     (by norm_num)⟩

/-! ## UTF-8 string framing (`util.EncodeUTF8`, `util.ReadUTF8`)

Strings are modelled as their byte sequences (`List Nat`). -/

/-- Big-endian bytes of `uint16(x)` (`binary.BigEndian.PutUint16`). -/
def uint16BE (x : Nat) : List Nat := [x % 65536 / 256, x % 256]

/-- `util.EncodeUTF8`: 2-byte big-endian length prefix followed by the
string bytes; strings longer than `0xFFFF` are rejected. -/
def encodeUTF8 (str : List Nat) : Except MErr (List Nat) :=
  if 0xFFFF < str.length then .error .stringTooLong
  else .ok (uint16BE str.length ++ str)

/-- `util.ReadUTF8`: read the 2-byte big-endian length, then that many
bytes, returning `(bytes, bytesConsumed, remainingStream)`.  An empty
stream is a transport error (`eof`); a single byte trips the source's
`n < 2` check (`io.ErrUnexpectedEOF`); a stream shorter than the
declared length is modelled as `eof`. -/
def readUTF8 (s : List Nat) : Except MErr (List Nat × Nat × List Nat) :=
  match s with
  | [] => .error .eof
  | [_] => .error .unexpectedEOF
  | b0 :: b1 :: rest =>
    let l := b0 % 256 * 256 + b1 % 256
    if rest.length < l then .error .eof
    else .ok (rest.take l, 2 + l, rest.drop l)

/-! ## PUBLISH and the acknowledgement packets
(`src/packets/publish.go`; the `src/mqtt/publish.go` copy is
byte-for-byte the same logic) -/

/-- The fields of `packets.Publish` (version omitted; strings as byte
lists). -/
structure Publish where
  duplicate : Bool
  qoSLevel : Nat
  retain : Bool
  topicName : List Nat
  packetIdentifier : Nat
  payload : List Nat
  deriving Repr, DecidableEq

/-- The fixed-header byte assembled at the top of
`Publish.MarshalBinary`: `cmdPublish` with the duplicate, QoS and
retain flag bits or-ed in (`uint8(QoSLevel) << 1` truncates at 8
bits). -/
def publishFixedHeader (p : Publish) : Nat :=
  let f0 := 0x30
  let f1 := if p.duplicate then f0 ||| 0x08 else f0
  let f2 := if 0 < p.qoSLevel then f1 ||| p.qoSLevel * 2 % 256 else f1
  if p.retain then f2 ||| 0x01 else f2

/-- `Publish.MarshalBinary` (`src/packets/publish.go:111`).  The
remaining length is `len(topicName) + 4 + len(payload)` — the
packet-identifier pair of bytes is counted and written *unconditionally*,
for QoS 0 as well. -/
def publishMarshalBinary (p : Publish) : Except MErr (List Nat) :=
  let remLength := (p.topicName.length + 4 + p.payload.length) % 2 ^ 32
  -- EncodeUvarint into the 4-byte buffer: a longer encoding panics in
  -- binary.PutUvarint and is recovered as an error.
  if 4 < (putUvarint remLength).length then .error .packetTooLarge
  else
    match encodeUTF8 p.topicName with
    | .error e => .error e
    | .ok topicBytes =>
      .ok (publishFixedHeader p :: putUvarint remLength ++ topicBytes ++
        uint16BE p.packetIdentifier ++ p.payload)

/-- The result fields that `Publish.ReadFrom` assigns. -/
structure PublishFields where
  topicName : List Nat
  packetIdentifier : Nat
  payload : List Nat
  deriving Repr, DecidableEq

/-- `Publish.ReadFrom` (`src/packets/publish.go:160`): read the
remaining-length varint and the topic, then *always* two
packet-identifier bytes, and the remaining `length` bytes of payload.
`length` is a Go `int` and may go negative, hence the `Int`
bookkeeping.  Returns the fields and the total byte count `n`. -/
def publishReadFrom (s : List Nat) : Except MErr (PublishFields × Nat) :=
  match readVarint s with
  | .error e => .error e
  | .ok (remLength, n0) =>
    match readUTF8 (s.drop n0) with
    | .error e => .error e
    | .ok (topic, nTopic, s1) =>
      let length : Int := (remLength : Int) - nTopic
      if length ≤ 0 then .error .packetShort
      else
        match s1 with
        | b0 :: b1 :: s2 =>
          let length := length - 2
          if length < 0 then .error .packetShort
          else
            let pid := b0 % 256 * 256 + b1 % 256
            if s2.length < length.toNat then .error .eof
            else .ok (⟨topic, pid, s2.take length.toNat⟩,
              n0 + nTopic + 2 + length.toNat)
        | _ => .error .eof

/-- `PubAck.MarshalBinary`: `[cmdPubAck, 2, id_hi, id_lo]`. -/
def pubAckMarshalBinary (id : Nat) : List Nat := 0x40 :: 2 :: uint16BE id

/-- `PubRec.MarshalBinary`. -/
def pubRecMarshalBinary (id : Nat) : List Nat := 0x50 :: 2 :: uint16BE id

/-- `PubRel.MarshalBinary`. -/
def pubRelMarshalBinary (id : Nat) : List Nat := 0x60 :: 2 :: uint16BE id

/-- `PubComp.MarshalBinary`. -/
def pubCompMarshalBinary (id : Nat) : List Nat := 0x70 :: 2 :: uint16BE id

/-- `PubAck.ReadFrom` (`src/packets/publish.go:210`): reads ONE byte
(the remaining-length byte) into `buf[:1]`, sets `n` to the byte COUNT
that was read (1 on any successful read), and then compares `n` — not
the length byte's value — against 2.  The `n > 2` / trailing branches
are kept to mirror the source. -/
def pubAckReadFrom (s : List Nat) : Except MErr (Nat × Nat) :=
  match s with
  | [] => .error .eof
  | _b :: rest =>
    let n := 1
    if n < 2 then .error .unexpectedEOF
    else if n > 2 then .error .packetLong
    else
      match rest with
      | b0 :: b1 :: _ => .ok (b0 % 256 * 256 + b1 % 256, n + 2)
      | _ => .error .eof

/-- `PubRec.ReadFrom` — same body as `PubAck.ReadFrom`. -/
def pubRecReadFrom (s : List Nat) : Except MErr (Nat × Nat) :=
  match s with
  | [] => .error .eof
  | _b :: rest =>
    let n := 1
    if n < 2 then .error .unexpectedEOF
    else if n > 2 then .error .packetLong
    else
      match rest with
      | b0 :: b1 :: _ => .ok (b0 % 256 * 256 + b1 % 256, n + 2)
      | _ => .error .eof

/-- `PubRel.ReadFrom` — same body as `PubAck.ReadFrom`. -/
def pubRelReadFrom (s : List Nat) : Except MErr (Nat × Nat) :=
  match s with
  | [] => .error .eof
  | _b :: rest =>
    let n := 1
    if n < 2 then .error .unexpectedEOF
    else if n > 2 then .error .packetLong
    else
      match rest with
      | b0 :: b1 :: _ => .ok (b0 % 256 * 256 + b1 % 256, n + 2)
      | _ => .error .eof

/-- `PubComp.ReadFrom` — same body as `PubAck.ReadFrom`. -/
def pubCompReadFrom (s : List Nat) : Except MErr (Nat × Nat) :=
  match s with
  | [] => .error .eof
  | _b :: rest =>
    let n := 1
    if n < 2 then .error .unexpectedEOF
    else if n > 2 then .error .packetLong
    else
      match rest with
      | b0 :: b1 :: _ => .ok (b0 % 256 * 256 + b1 % 256, n + 2)
      | _ => .error .eof

/-- `UnsubAck.ReadFrom` (`src/packets/subscribe.go:290`): reads the
remaining-length varint and checks its VALUE against 2, then reads the
two packet-identifier bytes. -/
def unsubAckReadFrom (s : List Nat) : Except MErr (Nat × Nat) :=
  match readVarint s with
  | .error e => .error e
  | .ok (remLength, n) =>
    if remLength < 2 then .error .packetShort
    else if remLength > 2 then .error .packetLong
    else
      match s.drop n with
      | b0 :: b1 :: _ => .ok (b0 % 256 * 256 + b1 % 256, n + 2)
      | _ => .error .eof

/-- C1: the encode/decode round trip is BROKEN for the acknowledgement
packets: for every packet identifier, feeding the marshalled bytes of a
PubAck/PubRec/PubRel/PubComp (after the fixed-header byte) back into the
matching `ReadFrom` yields `io.ErrUnexpectedEOF` instead of the packet,
because `ReadFrom` compares the byte count `n` (always 1) with 2.  The
repository's own tests (`TestPubAck` etc.) assert that this round trip
succeeds. -/
theorem pubAck_roundtrip_fails (id : Nat) :
    pubAckReadFrom ((pubAckMarshalBinary id).drop 1) =
      Except.error MErr.unexpectedEOF ∧
    pubRecReadFrom ((pubRecMarshalBinary id).drop 1) =
      Except.error MErr.unexpectedEOF ∧
    pubRelReadFrom ((pubRelMarshalBinary id).drop 1) =
      Except.error MErr.unexpectedEOF ∧
    pubCompReadFrom ((pubCompMarshalBinary id).drop 1) =
      Except.error MErr.unexpectedEOF := by
  refine ⟨?_, ?_, ?_, ?_⟩ <;>
    simp [pubAckReadFrom, pubRecReadFrom, pubRelReadFrom, pubCompReadFrom,
      pubAckMarshalBinary, pubRecMarshalBinary, pubRelMarshalBinary,
      pubCompMarshalBinary, uint16BE]

/-- Witness for C1 at packet identifier 0 (the value exercised by the
repository test `TestPubAck`). -/
theorem pubAck_roundtrip_fails_witness :
    pubAckReadFrom ((pubAckMarshalBinary 0).drop 1) =
      Except.error MErr.unexpectedEOF :=
  (pubAck_roundtrip_fails 0).1

/-- C2: `Publish.MarshalBinary` does NOT omit the packet identifier at
QoS 0: the spec's example (QoS-0 PUBLISH on "foo/bar" with payload
"baz") is encoded with remaining length `0x0E` and a two-byte packet id
`00 00` between topic and payload, not as the claimed
`30 0C 00 07 66 6F 6F 2F 62 61 72 62 61 7A`; conversely,
`Publish.ReadFrom` on the spec's claimed byte sequence consumes the
first two payload bytes `62 61` as a packet identifier and returns the
one-byte payload `7A`. -/
theorem publish_qos0_packet_id_always_present :
    publishMarshalBinary
      ⟨false, 0, false, [0x66, 0x6F, 0x6F, 0x2F, 0x62, 0x61, 0x72], 0,
        [0x62, 0x61, 0x7A]⟩ =
      .ok [0x30, 0x0E, 0x00, 0x07, 0x66, 0x6F, 0x6F, 0x2F, 0x62, 0x61,
        0x72, 0x00, 0x00, 0x62, 0x61, 0x7A] ∧
    publishReadFrom [0x0C, 0x00, 0x07, 0x66, 0x6F, 0x6F, 0x2F, 0x62,
        0x61, 0x72, 0x62, 0x61, 0x7A] =
      .ok (⟨[0x66, 0x6F, 0x6F, 0x2F, 0x62, 0x61, 0x72], 0x6261, [0x7A]⟩,
        13) := by
  constructor
  · have h14 : putUvarint 14 = [14] := by rw [putUvarint]; norm_num
    simp [publishMarshalBinary, encodeUTF8, uint16BE, publishFixedHeader,
      h14]
  · rfl

/-- C3: the `PubAck`/`PubRec`/`PubRel`/`PubComp` decoders do NOT
implement the declared-remaining-length rule — they return
`io.ErrUnexpectedEOF` on a well-formed body `02 00 01`, on an overlong
declaration `05 ...`, and on a short declaration `01`, because they
compare the read count `n` with 2 — while `UnsubAck.ReadFrom` does
implement it (`PacketShort` below 2, `PacketLong` above 2, success with
the 16-bit identifier at exactly 2). -/
theorem pubAck_length_rule_broken_unsubAck_correct :
    pubAckReadFrom [2, 0, 1] = Except.error MErr.unexpectedEOF ∧
    pubAckReadFrom [5, 0, 1, 0, 0, 0] = Except.error MErr.unexpectedEOF ∧
    pubAckReadFrom [1, 0, 1] = Except.error MErr.unexpectedEOF ∧
    pubRecReadFrom [2, 0, 1] = Except.error MErr.unexpectedEOF ∧
    pubRelReadFrom [2, 0, 1] = Except.error MErr.unexpectedEOF ∧
    pubCompReadFrom [2, 0, 1] = Except.error MErr.unexpectedEOF ∧
    unsubAckReadFrom [2, 0, 1] = .ok (1, 3) ∧
    unsubAckReadFrom [5, 0, 1, 0, 0, 0] = Except.error MErr.packetLong ∧
    unsubAckReadFrom [0] = Except.error MErr.packetShort := by
  refine ⟨rfl, rfl, rfl, rfl, rfl, rfl, rfl, rfl, rfl⟩

/-! ## `WriteTo` frame effects

A writer is modelled as the list of bytes written to it so far; the
result of a `WriteTo` call is the new writer state together with the
returned `(n, err)` pair. -/

/-- `Publish.WriteTo` (`src/packets/publish.go:154`): marshal, set `n`
to the length of the marshalled buffer, and return — the writer `w` is
never used. -/
def publishWriteTo (p : Publish) (w : List Nat) :
    List Nat × Nat × Option MErr :=
  match publishMarshalBinary p with
  | .ok b => (w, b.length, none)
  | .error e => (w, 0, some e)

/-- `PubAck.WriteTo`: marshal (which cannot fail) and write the buffer
to `w`. -/
def pubAckWriteTo (id : Nat) (w : List Nat) :
    List Nat × Nat × Option MErr :=
  let b := pubAckMarshalBinary id
  (w ++ b, b.length, none)

/-- C10: for every `Publish` packet and writer, `Publish.WriteTo`
leaves the writer unchanged while returning the length of the
marshalled encoding (0 together with the error when marshalling
fails), whereas the ack packets' `WriteTo` (here `PubAck.WriteTo`,
representative of every other variant in the file) appends the
marshalled bytes to the writer. -/
theorem publish_writeTo_writes_nothing (p : Publish) (w : List Nat) :
    (publishWriteTo p w).1 = w ∧
    (∀ b, publishMarshalBinary p = .ok b →
      publishWriteTo p w = (w, b.length, none)) ∧
    (∀ id w', pubAckWriteTo id w' =
      (w' ++ pubAckMarshalBinary id, (pubAckMarshalBinary id).length,
        none)) := by
  refine ⟨?_, ?_, fun id w' => rfl⟩
  · unfold publishWriteTo
    cases publishMarshalBinary p <;> rfl
  · intro b hb
    unfold publishWriteTo
    rw [hb]

/-- Witness for C10 at the QoS-0 example packet and a non-empty
writer. -/
theorem publish_writeTo_writes_nothing_witness :
    (publishWriteTo
      ⟨false, 0, false, [0x66, 0x6F, 0x6F, 0x2F, 0x62, 0x61, 0x72], 0,
        [0x62, 0x61, 0x7A]⟩ [9, 9, 9]).1 = [9, 9, 9] ∧
    pubAckWriteTo 7 [] = ([0x40, 2, 0, 7], 4, none) :=
  ⟨(publish_writeTo_writes_nothing _ [9, 9, 9]).1,
   ((publish_writeTo_writes_nothing
      ⟨false, 0, false, [], 0, []⟩ []).2.2 7 []).trans (by rfl)⟩

/-! ## Subscription routing (`src/client/utils.go`, `topicChan`)

Topics are modelled as their character lists; delivery sinks
(`chan<- []byte`) as `Option Nat` channel identities (`none` is Go's
nil channel). -/

/-- `strings.Split(topic, "/")`, accumulator form. -/
def splitSlashAux : List Char → List Char → List (List Char)
  | [], acc => [acc.reverse]
  | c :: rest, acc =>
    if c = '/' then acc.reverse :: splitSlashAux rest []
    else splitSlashAux rest (c :: acc)

/-- `strings.Split(topic, "/")`. -/
def splitSlash (topic : List Char) : List (List Char) :=
  splitSlashAux topic []

/-- The `topicChan` tree: an optional delivery sink and the `Child`
map from segment names to subtrees (the `Parent` back-reference of the
Go struct is only used by `remove` and is not needed here). -/
inductive TopicChan : Type where
  | node : Option Nat → List (List Char × TopicChan) → TopicChan
  deriving Repr

/-- The node's sink (`Chan` field). -/
def TopicChan.chan : TopicChan → Option Nat
  | node c _ => c

/-- The node's `Child` map. -/
def TopicChan.children : TopicChan → List (List Char × TopicChan)
  | node _ cs => cs

/-- Go map lookup `t.Child[name]` over the association list. -/
def findChild (name : List Char) :
    List (List Char × TopicChan) → Option TopicChan
  | [] => none
  | (k, v) :: rest => if k = name then some v else findChild name rest

/-- The loop of `topicChan.get` over the remaining `/`-segments: at
each node the `"*"` child is consulted first (it matches only when the
current segment is the LAST one and the wildcard node carries a sink —
otherwise the lookup is abandoned); next the `"+"` child is followed
unconditionally; only if neither wildcard child exists is the concrete
segment child tried. -/
def topicGetSegs : TopicChan → List (List Char) → Option Nat
  | t, [] => t.chan
  | t, scope :: rest =>
    match findChild ['*'] t.children with
    | some wildcard =>
      if rest = [] then wildcard.chan else none
    | none =>
      match findChild ['+'] t.children with
      | some wildcard => topicGetSegs wildcard rest
      | none =>
        match findChild scope t.children with
        | some p => topicGetSegs p rest
        | none => none

/-- `topicChan.get` (`src/client/utils.go:39`). -/
def topicChanGet (t : TopicChan) (topic : List Char) : Option Nat :=
  topicGetSegs t (splitSlash topic)

/-- The tree state holding the two filters of the claim: `"a/+"` with
sink 1 and `"a/b"` with sink 2. -/
def treeAPlusAB : TopicChan :=
  .node none
    [(['a'], .node none
      [(['+'], .node (some 1) []),
       (['b'], .node (some 2) [])])]

/-- Counterexample to C4: with both `"a/+"` (sink 1) and `"a/b"`
(sink 2) present in the tree, `topicChan.get "a/b"` returns the `"+"`
sink 1, not the concrete sink 2 the claim requires. -/
theorem topicGet_concrete_first_false :
    topicChanGet treeAPlusAB ['a', '/', 'b'] = some 1 ∧
    topicChanGet treeAPlusAB ['a', '/', 'b'] ≠ some 2 := by
  refine ⟨rfl, ?_⟩
  intro h
  simp [topicChanGet, treeAPlusAB, splitSlash, splitSlashAux,
    topicGetSegs, findChild, TopicChan.children, TopicChan.chan] at h

/-- C4 (amended): matching proceeds per `/`-segment trying the `"*"`
child first (a match only when it is the last segment and carries a
sink, otherwise no match at all), then the `"+"` child, and only when
neither wildcard child exists the concrete-segment child; in
particular, with both `"a/+"` and `"a/b"` registered, an inbound
PUBLISH on `"a/b"` is delivered to the sink registered under `"a/+"`. -/
theorem topicGet_wildcard_first (cn : Option Nat)
    (children : List (List Char × TopicChan)) (w : TopicChan)
    (scope : List Char) (rest : List (List Char)) :
    (findChild ['*'] children = some w →
      topicGetSegs (.node cn children) (scope :: rest) =
        if rest = [] then w.chan else none) ∧
    (findChild ['*'] children = none →
      findChild ['+'] children = some w →
      topicGetSegs (.node cn children) (scope :: rest) =
        topicGetSegs w rest) ∧
    (findChild ['*'] children = none →
      findChild ['+'] children = none →
      findChild scope children = some w →
      topicGetSegs (.node cn children) (scope :: rest) =
        topicGetSegs w rest) ∧
    topicChanGet treeAPlusAB ['a', '/', 'b'] = some 1 := by
  refine ⟨fun h => ?_, fun h1 h2 => ?_, fun h1 h2 h3 => ?_, rfl⟩
  · simp [topicGetSegs, TopicChan.children, h]
  · simp [topicGetSegs, TopicChan.children, h1, h2]
  · simp [topicGetSegs, TopicChan.children, h1, h2, h3]

/-- Witness for C4's amended statement at the claim's concrete tree:
the `"+"` rule fires at the node for segment `"b"`. -/
theorem topicGet_wildcard_first_witness :
    topicGetSegs (.node none
      [(['+'], .node (some 1) []), (['b'], .node (some 2) [])])
      [['b']] = topicGetSegs (.node (some 1) []) [] :=
  (topicGet_wildcard_first none
    [(['+'], .node (some 1) []), (['b'], .node (some 2) [])]
    (.node (some 1) []) ['b'] []).2.1 rfl rfl

/-! ## Packet-identifier allocation
(`Client.aquirePacketID`, `src/client/client_internal.go:13`) -/

/-- The loop of `Client.aquirePacketID`: `fuel` counts the remaining
iterations of `for i := 0; i < 65535; i++`; `c` is the current value of
the 32-bit counter (all arithmetic on it matters only modulo 2^16
because the candidate is the `uint16` truncation of the incremented
counter).  `pending` and `ack` are the key sets of the pending-packet
table and the ack-waiter table.  Exhausting the loop panics
(`none`). -/
def aquirePacketIDGo (pending ack : Finset ℕ) : ℕ → ℕ → Option ℕ
  | 0, _ => none
  | fuel + 1, c =>
    let ret := (c + 1) % 65536
    if ret ∈ pending then aquirePacketIDGo pending ack fuel (c + 1)
    else if ret ∈ ack then aquirePacketIDGo pending ack fuel (c + 1)
    else some ret

/-- `Client.aquirePacketID` starting from counter value `c`. -/
def aquirePacketID (pending ack : Finset ℕ) (c : ℕ) : Option ℕ :=
  aquirePacketIDGo pending ack 65535 c

theorem aquirePacketIDGo_not_mem (pending ack : Finset ℕ) :
    ∀ fuel c id, aquirePacketIDGo pending ack fuel c = some id →
      id ∉ pending ∧ id ∉ ack := by
  intro fuel
  induction fuel with
  | zero => intro c id h; simp [aquirePacketIDGo] at h
  | succ n ih =>
    intro c id h
    rw [aquirePacketIDGo] at h
    by_cases hp : (c + 1) % 65536 ∈ pending
    · simp only [hp, if_true] at h
      exact ih (c + 1) id h
    · by_cases ha : (c + 1) % 65536 ∈ ack
      · simp only [hp, ha, if_false, if_true] at h
        exact ih (c + 1) id h
      · simp only [hp, ha, if_false, Option.some.injEq] at h
        exact h ▸ ⟨hp, ha⟩

theorem aquirePacketIDGo_none (pending ack : Finset ℕ) :
    ∀ fuel c, aquirePacketIDGo pending ack fuel c = none →
      ∀ k < fuel, (c + 1 + k) % 65536 ∈ pending ∪ ack := by
  intro fuel
  induction fuel with
  | zero => intro c _ k hk; omega
  | succ n ih =>
    intro c h k hk
    rw [aquirePacketIDGo] at h
    by_cases hp : (c + 1) % 65536 ∈ pending
    · simp only [hp, if_true] at h
      rcases Nat.eq_zero_or_pos k with hk0 | hk0
      · subst hk0; simpa using Finset.mem_union_left ack hp
      · have := ih (c + 1) h (k - 1) (by omega)
        have e : c + 1 + 1 + (k - 1) = c + 1 + k := by omega
        rwa [e] at this
    · by_cases ha : (c + 1) % 65536 ∈ ack
      · simp only [hp, ha, if_false, if_true] at h
        rcases Nat.eq_zero_or_pos k with hk0 | hk0
        · subst hk0; simpa using Finset.mem_union_right pending ha
        · have := ih (c + 1) h (k - 1) (by omega)
          have e : c + 1 + 1 + (k - 1) = c + 1 + k := by omega
          rwa [e] at this
      · simp [hp, ha] at h

/-- C5: for every state of the pending-packet table and the ack-waiter
table, `aquirePacketID` never hands out an identifier that is present
in either table, and it gives up (panics) only when all 65 535
consecutive candidate identifiers `counter+1, …, counter+65535`
(truncated to 16 bits) are in use. -/
theorem aquirePacketID_fresh (pending ack : Finset ℕ) (c : ℕ) :
    (∀ id, aquirePacketID pending ack c = some id →
      id ∉ pending ∧ id ∉ ack) ∧
    (aquirePacketID pending ack c = none →
      ∀ k < 65535, (c + 1 + k) % 65536 ∈ pending ∪ ack) :=
  ⟨fun id h => aquirePacketIDGo_not_mem pending ack 65535 c id h,
   fun h => aquirePacketIDGo_none pending ack 65535 c h⟩

/-- Witness for C5: with identifiers 5 and 6 outstanding and the
counter at 4, the allocator skips to 7. -/
theorem aquirePacketID_fresh_witness :
    aquirePacketID {5} {6} 4 = some 7 ∧
    7 ∉ ({5} : Finset ℕ) ∧ 7 ∉ ({6} : Finset ℕ) := by
  have h : aquirePacketID {5} {6} 4 = some 7 := by
    rw [aquirePacketID]
    rw [aquirePacketIDGo]; norm_num
    rw [aquirePacketIDGo]; norm_num
    rw [aquirePacketIDGo]; norm_num
  exact ⟨h, (aquirePacketID_fresh {5} {6} 4).1 7 h⟩

/-! ## CONNACK return-code mapping
(`Client.Connect`, `src/unnamed/part_008:131`) -/

/-- The outcomes of `Client.Connect` after a CONNACK is received. -/
inductive ConnectOutcome : Type where
  /-- `return nil` -/
  | ok
  /-- `mqtt.ErrConnectBadVersion` -/
  | badVersion
  /-- `mqtt.ErrConnectIDNotAllowed` -/
  | idNotAllowed
  /-- `mqtt.ErrConnectUnavailable` -/
  | unavailable
  /-- `mqtt.ErrConnectCredentials` -/
  | badCredentials
  /-- `mqtt.ErrConnectUnauthorized` -/
  | unauthorized
  /-- `ErrIllegalResponse` -/
  | illegalResponse
  deriving Repr, DecidableEq

/-- The `switch connAck.ReturnCode` of `Client.Connect`
(`ConnAckAccepted = 0` … `ConnAckUnauthorized = 5`, anything else falls
to the `default` branch). -/
def connackOutcome (code : ℕ) : ConnectOutcome :=
  if code = 0 then .ok
  else if code = 1 then .badVersion
  else if code = 2 then .idNotAllowed
  else if code = 3 then .unavailable
  else if code = 4 then .badCredentials
  else if code = 5 then .unauthorized
  else .illegalResponse

/-- C6: the result of `connect` is determined by the CONNACK return
code exactly as claimed: 0 succeeds, 1–5 map to the five labelled
connect errors, and every code ≥ 6 yields `IllegalResponse`. -/
theorem connack_code_mapping (code : ℕ) :
    connackOutcome 0 = .ok ∧
    connackOutcome 1 = .badVersion ∧
    connackOutcome 2 = .idNotAllowed ∧
    connackOutcome 3 = .unavailable ∧
    connackOutcome 4 = .badCredentials ∧
    connackOutcome 5 = .unauthorized ∧
    (6 ≤ code → connackOutcome code = .illegalResponse) := by
  refine ⟨rfl, rfl, rfl, rfl, rfl, rfl, fun h => ?_⟩
  unfold connackOutcome
  have : code ≠ 0 ∧ code ≠ 1 ∧ code ≠ 2 ∧ code ≠ 3 ∧ code ≠ 4 ∧
      code ≠ 5 := by omega
  simp [this.1, this.2.1, this.2.2.1, this.2.2.2.1, this.2.2.2.2.1,
    this.2.2.2.2.2]

/-- Witness for C6 at return code 6. -/
theorem connack_code_mapping_witness :
    connackOutcome 6 = ConnectOutcome.illegalResponse :=
  (connack_code_mapping 6).2.2.2.2.2.2 (by norm_num)

/-! ## CONNECT decoding (`src/packets/connect.go`)

`util.ReadValue` reads one typed value bounded by `maxLen` (a Go `int`,
possibly negative).  Flag bits of a byte `f` are tested arithmetically:
`f & 0x20 > 0 ↔ f / 32 % 2 = 1`, `f & 0x04 == 0 ↔ f / 4 % 2 = 0`,
`f & 0x02 > 0 ↔ f / 2 % 2 = 1`. -/

/-- `util.ReadValue` on a `*[]byte` / `*string` target: 2-byte
big-endian length prefix, then that many bytes. -/
def readValueBytes (maxLen : Int) (s : List Nat) :
    Except MErr (List Nat × Nat × List Nat) :=
  if maxLen < 2 then .error .packetShort
  else
    match s with
    | b0 :: b1 :: rest =>
      let dataLen := b0 % 256 * 256 + b1 % 256
      if (dataLen : Int) + 2 > maxLen then .error .packetShort
      else if rest.length < dataLen then .error .eof
      else .ok (rest.take dataLen, 2 + dataLen, rest.drop dataLen)
    | _ => .error .eof

/-- `util.ReadValue` on a `*uint8` target. -/
def readValueU8 (maxLen : Int) (s : List Nat) :
    Except MErr (Nat × Nat × List Nat) :=
  if maxLen < 1 then .error .packetShort
  else
    match s with
    | b :: rest => .ok (b % 256, 1, rest)
    | _ => .error .eof

/-- `util.ReadValue` on a `*uint16` target. -/
def readValueU16 (maxLen : Int) (s : List Nat) :
    Except MErr (Nat × Nat × List Nat) :=
  if maxLen < 2 then .error .packetShort
  else
    match s with
    | b0 :: b1 :: rest => .ok (b0 % 256 * 256 + b1 % 256, 2, rest)
    | _ => .error .eof

/-- `util.ReadValue` on a `*uint32` target. -/
def readValueU32 (maxLen : Int) (s : List Nat) :
    Except MErr (Nat × Nat × List Nat) :=
  if maxLen < 4 then .error .packetShort
  else
    match s with
    | b0 :: b1 :: b2 :: b3 :: rest =>
      .ok (b0 % 256 * 2 ^ 24 + b1 % 256 * 2 ^ 16 + b2 % 256 * 256 +
        b3 % 256, 4, rest)
    | _ => .error .eof

/-- The fields of `packets.Connect` that `parseVarHeader` and
`readConnProperties` assign. -/
structure ConnectS where
  version : Nat := 0
  willRetain : Bool := false
  cleanSession : Bool := false
  keepAlive : Nat := 0
  sessionExpiryInterval : Nat := 0
  receiveMax : Nat := 0
  maxPacketSize : Nat := 0
  topicAliasMax : Nat := 0
  requestResponseInfo : Bool := false
  disableProblemInfo : Bool := false
  connUserProperties : List (List Nat × List Nat) := []
  authMethod : List Nat := []
  authData : List Nat := []
  deriving Repr, DecidableEq

/-- `Connect.readConnProperty` (`src/packets/connect.go:484`): one
property, dispatched on the identifier byte; unknown identifiers are a
protocol error. -/
def readConnProperty (st : ConnectS) (propID : Nat) (propLen : Int)
    (s : List Nat) : Except MErr (ConnectS × Nat × List Nat) :=
  if propID = 0x11 then
    match readValueU32 propLen s with
    | .error e => .error e
    | .ok (v, n, s) => .ok ({ st with sessionExpiryInterval := v }, n, s)
  else if propID = 0x21 then
    match readValueU16 propLen s with
    | .error e => .error e
    | .ok (v, n, s) => .ok ({ st with receiveMax := v }, n, s)
  else if propID = 0x27 then
    match readValueU32 propLen s with
    | .error e => .error e
    | .ok (v, n, s) => .ok ({ st with maxPacketSize := v }, n, s)
  else if propID = 0x22 then
    match readValueU16 propLen s with
    | .error e => .error e
    | .ok (v, n, s) => .ok ({ st with topicAliasMax := v }, n, s)
  else if propID = 0x19 then
    match readValueU8 propLen s with
    | .error e => .error e
    | .ok (v, n, s) =>
      .ok (if v = 1 then { st with requestResponseInfo := true } else st,
        n, s)
  else if propID = 0x17 then
    match readValueU8 propLen s with
    | .error e => .error e
    | .ok (v, n, s) =>
      .ok (if v = 0 then { st with disableProblemInfo := true } else st,
        n, s)
  else if propID = 0x26 then
    match readValueBytes propLen s with
    | .error e => .error e
    | .ok (key, n1, s1) =>
      match readValueBytes (propLen - n1) s1 with
      | .error e => .error e
      | .ok (value, n2, s2) =>
        .ok ({ st with
          connUserProperties := st.connUserProperties ++ [(key, value)] },
          n1 + n2, s2)
  else if propID = 0x15 then
    match readValueBytes propLen s with
    | .error e => .error e
    | .ok (v, n, s) => .ok ({ st with authMethod := v }, n, s)
  else if propID = 0x16 then
    match readValueBytes propLen s with
    | .error e => .error e
    | .ok (v, n, s) => .ok ({ st with authData := v }, n, s)
  else .error .protocolError

/-- The `for n < propLen` loop of `Connect.readConnProperties`
(`src/packets/connect.go:558`); `fuel` bounds the iterations (each
successful iteration consumes at least one byte, so `propLen.toNat + 1`
is always sufficient). -/
def readConnPropsGo (st : ConnectS) (s : List Nat)
    (propLen n : Int) : Nat → Except MErr (ConnectS × Int × List Nat)
  | 0 => .ok (st, n, s)
  | fuel + 1 =>
    if n < propLen then
      match readValueU8 (propLen - n) s with
      | .error e => .error e
      | .ok (propID, n1, s1) =>
        match readConnProperty st propID (propLen - (n + n1)) s1 with
        | .error e => .error e
        | .ok (st2, n2, s2) =>
          readConnPropsGo st2 s2 propLen (n + n1 + n2) fuel
    else .ok (st, n, s)

/-- `Connect.readConnProperties`. -/
def readConnProperties (st : ConnectS) (propLen : Int) (s : List Nat) :
    Except MErr (ConnectS × Int × List Nat) :=
  readConnPropsGo st s propLen 0 (propLen.toNat + 1)

/-- `Connect.parseVarHeader` (`src/packets/connect.go:579`): protocol
name, version byte (4 or 5), flag byte — `WillRetain` without `Will` is
an illegal flag composition — keep-alive, and for v5 the property list.
Returns the populated fields, the flag byte, the byte count and the
rest of the stream. -/
def parseVarHeader (remLen : Int) (s : List Nat) :
    Except MErr (ConnectS × Nat × Int × List Nat) :=
  match readValueBytes remLen s with
  | .error e => .error e
  | .ok (buf, n1, s1) =>
    if buf ≠ [77, 81, 84, 84] then .error .protocolError
    else
      match readValueU8 (remLen - n1) s1 with
      | .error e => .error e
      | .ok (verByte, n2, s2) =>
        if verByte ≠ 4 ∧ verByte ≠ 5 then .error .protocolError
        else
          let st1 : ConnectS := { version := verByte }
          match readValueU8 (remLen - (n1 + n2)) s2 with
          | .error e => .error e
          | .ok (flags, n3, s3) =>
            let retainSet := flags / 32 % 2 = 1
            let willClear := flags / 4 % 2 = 0
            if retainSet ∧ willClear then .error .protocolError
            else
              let st2 := if flags / 32 % 2 = 1 then
                { st1 with willRetain := true } else st1
              let st3 := if flags / 2 % 2 = 1 then
                { st2 with cleanSession := true } else st2
              match readValueU16 (remLen - (n1 + n2 + n3)) s3 with
              | .error e => .error e
              | .ok (ka, n4, s4) =>
                let st4 := { st3 with keepAlive := ka }
                let n : Int := n1 + n2 + n3 + n4
                if st4.version ≥ 5 then
                  match readVarint s4 with
                  | .error e => .error e
                  | .ok (v, n5) =>
                    if remLen < n5 then .error .packetShort
                    else
                      match readConnProperties st4 v (s4.drop n5) with
                      | .error e => .error e
                      | .ok (st5, n6, s6) =>
                        .ok (st5, flags, n + n5 + n6, s6)
                else .ok (st4, flags, n, s4)

/-- C8: decoding a CONNECT whose flag byte has the `WillRetain` bit
(0x20) set but the `Will` bit (0x04) clear fails with the "illegal flag
composition" protocol error; when the `Will` bit is also set the flag
byte is accepted and `WillRetain` is recorded as `true` in the decoded
packet.  The stream below is a v3.1.1 variable header `00 04 "MQTT" 04
<flags> <keep-alive>` followed by arbitrary bytes. -/
theorem connect_willRetain_flag_validation (remLen : Int) (f k1 k2 : Nat)
    (rest : List Nat) (hrem : 10 ≤ remLen) (hf : f < 256) :
    (f / 32 % 2 = 1 → f / 4 % 2 = 0 →
      parseVarHeader remLen
        (0 :: 4 :: 77 :: 81 :: 84 :: 84 :: 4 :: f :: k1 :: k2 :: rest) =
        Except.error MErr.protocolError) ∧
    (f / 32 % 2 = 1 → f / 4 % 2 = 1 →
      ∃ st n s', parseVarHeader remLen
        (0 :: 4 :: 77 :: 81 :: 84 :: 84 :: 4 :: f :: k1 :: k2 :: rest) =
        .ok (st, f, n, s') ∧ st.willRetain = true) := by
  have step1 : readValueBytes remLen
      (0 :: 4 :: 77 :: 81 :: 84 :: 84 :: 4 :: f :: k1 :: k2 :: rest) =
      .ok ([77, 81, 84, 84], 6, 4 :: f :: k1 :: k2 :: rest) := by
    unfold readValueBytes
    have h1 : ¬remLen < 2 := by omega
    have h2 : ¬((0 % 256 * 256 + 4 % 256 : Nat) : Int) + 2 > remLen := by
      norm_num; omega
    have h3 : ¬remLen < 6 := by omega
    simp [h1, h2, h3]
  have step2 : readValueU8 (remLen - 6) (4 :: f :: k1 :: k2 :: rest) =
      .ok (4, 1, f :: k1 :: k2 :: rest) := by
    unfold readValueU8
    have h1 : ¬remLen - 6 < 1 := by omega
    simp [h1]
  have step3 : readValueU8 (remLen - 7) (f :: k1 :: k2 :: rest) =
      .ok (f, 1, k1 :: k2 :: rest) := by
    unfold readValueU8
    have h1 : ¬remLen - 7 < 1 := by omega
    simp [h1, Nat.mod_eq_of_lt hf]
  have step4 : readValueU16 (remLen - 8) (k1 :: k2 :: rest) =
      .ok (k1 % 256 * 256 + k2 % 256, 2, rest) := by
    unfold readValueU16
    have h1 : ¬remLen - 8 < 2 := by omega
    simp [h1]
  constructor
  · intro hret hwill
    unfold parseVarHeader
    rw [step1]
    norm_num
    rw [step2]
    norm_num
    rw [step3]
    simp [hret, hwill]
  · intro hret hwill
    unfold parseVarHeader
    rw [step1]
    norm_num
    rw [step2]
    norm_num
    rw [step3]
    simp only [hret, hwill]
    norm_num
    rw [step4]
    by_cases hcs : f / 2 % 2 = 1 <;> simp [hcs]

/-- Witness for C8: flag byte `0x20` (WillRetain, no Will) is rejected;
flag byte `0x24` (WillRetain + Will) is accepted with
`WillRetain = true`. -/
theorem connect_willRetain_flag_validation_witness :
    parseVarHeader 12 [0, 4, 77, 81, 84, 84, 4, 0x20, 0, 60] =
      Except.error MErr.protocolError ∧
    (∃ st n s', parseVarHeader 12 [0, 4, 77, 81, 84, 84, 4, 0x24, 0, 60] =
      .ok (st, 0x24, n, s') ∧ st.willRetain = true) :=
  ⟨(connect_willRetain_flag_validation 12 0x20 0 60 [] (by norm_num)
      (by norm_num)).1 (by norm_num) (by norm_num),
   (connect_willRetain_flag_validation 12 0x24 0 60 [] (by norm_num)
      (by norm_num)).2 (by norm_num) (by norm_num)⟩

/-! ## Subscribe and the SUBACK rollback
(`Client.Subscribe`, `src/unnamed/part_008:238`) -/

/-- Association-list lookup used by the router model (Go map read). -/
def subLookup : List (List Char × Nat) → List Char → Option Nat
  | [], _ => none
  | p :: rest, name => if p.1 = name then some p.2 else subLookup rest name

/-- Modelled from the spec: the client's `subMap` subscription router
(its implementation file is absent from the sources; only the callers
in `Client.Subscribe`/`recvRoutine` remain).  §4.4–4.5 describe it as
storing one delivery sink per topic filter, with `add` failing on a
duplicate key.  Names are the filter strings (`List Char`), sinks are
channel identities. -/
def subMapAdd (m : List (List Char × Nat)) (name : List Char) (c : Nat) :
    List (List Char × Nat) :=
  if (subLookup m name).isSome then m else (name, c) :: m

/-- Modelled from the spec: `subMap.Del` removes the filter's entry
(§4.4 "Removal: `remove(filter)` deletes the sink"). -/
def subMapDel (m : List (List Char × Nat)) (name : List Char) :
    List (List Char × Nat) :=
  m.filter (fun p => p.1 ≠ name)

/-- The registration loop of `Client.Subscribe`: every requested topic
sink is added to the router before the SUBSCRIBE packet is sent. -/
def subRegister (subs : List (List Char × Nat))
    (topics : List (List Char × Nat)) : List (List Char × Nat) :=
  topics.foldl (fun m t => subMapAdd m t.1 t.2) subs

/-- The rollback loop of `Client.Subscribe` run on the SUBACK return
codes: `for i, status := range statusCodes { if status > 2 {
c.subs.Del(topics[i].Name) } }`. -/
def subRollback (subs : List (List Char × Nat))
    (pairs : List (Nat × (List Char × Nat))) : List (List Char × Nat) :=
  pairs.foldl (fun m p => if 2 < p.1 then subMapDel m p.2.1 else m) subs

/-- `Client.Subscribe` from the point the SUBACK arrives: the return
codes are handed back to the caller unchanged and every filter whose
code exceeds 2 is deleted from the router.  The pre-send registration
is included so the result is the router state the claim speaks
about. -/
def clientSubscribe (subs : List (List Char × Nat))
    (topics : List (List Char × Nat)) (codes : List Nat) :
    List Nat × List (List Char × Nat) :=
  (codes, subRollback (subRegister subs topics) (codes.zip topics))

theorem subLookup_subMapAdd_self (m : List (List Char × Nat))
    (name : List Char) (c : Nat) :
    (subLookup (subMapAdd m name c) name).isSome := by
  unfold subMapAdd
  by_cases h : (subLookup m name).isSome
  · simp [h]
  · simp [h, subLookup]

theorem subLookup_subMapAdd_other (m : List (List Char × Nat))
    (name name' : List Char) (c : Nat) (h : name' ≠ name) :
    subLookup (subMapAdd m name c) name' = subLookup m name' := by
  unfold subMapAdd
  by_cases hm : (subLookup m name).isSome
  · simp [hm]
  · simp [hm, subLookup, Ne.symm h]

theorem subLookup_subMapDel_self (m : List (List Char × Nat))
    (name : List Char) : subLookup (subMapDel m name) name = none := by
  induction m with
  | nil => rfl
  | cons p t ih =>
    unfold subMapDel at ih ⊢
    by_cases h : p.1 = name
    · simpa [List.filter_cons, h] using ih
    · simpa [List.filter_cons, h, subLookup] using ih

theorem subLookup_subMapDel_other (m : List (List Char × Nat))
    (name name' : List Char) (h : name' ≠ name) :
    subLookup (subMapDel m name) name' = subLookup m name' := by
  induction m with
  | nil => rfl
  | cons p t ih =>
    unfold subMapDel at ih ⊢
    rw [List.filter_cons]
    by_cases hp : p.1 = name
    · have hd : decide (p.1 ≠ name) = false := by simp [hp]
      rw [hd]
      simp only [Bool.false_eq_true, if_false]
      rw [ih]
      have hne : ¬p.1 = name' := by rw [hp]; exact fun e => h e.symm
      simp only [subLookup]
      rw [if_neg hne]
    · have hd : decide (p.1 ≠ name) = true := by simp [hp]
      rw [hd]
      simp only [if_true]
      by_cases hp' : p.1 = name'
      · simp only [subLookup]
        rw [if_pos hp', if_pos hp']
      · simp only [subLookup]
        rw [if_neg hp', if_neg hp']
        exact ih

theorem subLookup_subRegister_isSome (topics : List (List Char × Nat)) :
    ∀ (subs : List (List Char × Nat)) (name : List Char),
      (name ∈ topics.map Prod.fst ∨ (subLookup subs name).isSome) →
      (subLookup (subRegister subs topics) name).isSome := by
  induction topics with
  | nil =>
    intro subs name h
    simpa [subRegister] using h.resolve_left (by simp)
  | cons t rest ih =>
    intro subs name h
    unfold subRegister at ih ⊢
    simp only [List.foldl_cons]
    by_cases he : name = t.1
    · exact ih _ name (Or.inr (he ▸ subLookup_subMapAdd_self subs t.1 t.2))
    · rcases h with h | h
      · simp only [List.map_cons, List.mem_cons] at h
        rcases h with h | h
        · exact absurd h he
        · exact ih _ name (Or.inl h)
      · refine ih _ name (Or.inr ?_)
        rwa [subLookup_subMapAdd_other subs t.1 name t.2 he]

theorem subLookup_subRollback_none
    (pairs : List (Nat × (List Char × Nat))) :
    ∀ (subs : List (List Char × Nat)) (name : List Char),
      ((∃ p ∈ pairs, 2 < p.1 ∧ p.2.1 = name) ∨
        subLookup subs name = none) →
      subLookup (subRollback subs pairs) name = none := by
  induction pairs with
  | nil =>
    intro subs name h
    simpa [subRollback] using h.resolve_left (by simp)
  | cons p rest ih =>
    intro subs name h
    unfold subRollback at ih ⊢
    simp only [List.foldl_cons]
    rcases h with ⟨q, hq, hqc, hqn⟩ | h
    · simp only [List.mem_cons] at hq
      rcases hq with hq | hq
      · subst hq
        simp only [hqc, if_pos]
        exact ih _ name (Or.inr (hqn ▸ subLookup_subMapDel_self subs q.2.1))
      · exact ih _ name (Or.inl ⟨q, hq, hqc, hqn⟩)
    · refine ih _ name (Or.inr ?_)
      by_cases hc : 2 < p.1
      · simp only [hc, if_pos]
        by_cases he : name = p.2.1
        · exact he ▸ subLookup_subMapDel_self subs p.2.1
        · rwa [subLookup_subMapDel_other subs p.2.1 name he]
      · simpa [hc]

theorem subLookup_subRollback_untouched
    (pairs : List (Nat × (List Char × Nat))) :
    ∀ (subs : List (List Char × Nat)) (name : List Char),
      (∀ p ∈ pairs, p.2.1 = name → p.1 ≤ 2) →
      subLookup (subRollback subs pairs) name = subLookup subs name := by
  induction pairs with
  | nil => intro subs name _; rfl
  | cons p rest ih =>
    intro subs name h
    unfold subRollback at ih ⊢
    simp only [List.foldl_cons]
    by_cases hc : 2 < p.1
    · have hne : name ≠ p.2.1 := by
        intro he
        exact absurd (h p (by simp) he.symm) (by omega)
      rw [ih _ name (fun q hq => h q (by simp [hq]))]
      simp only [hc, if_pos]
      exact subLookup_subMapDel_other subs p.2.1 name hne
    · rw [ih _ name (fun q hq => h q (by simp [hq]))]
      simp [hc]

/-- C9: when the SUBACK arrives, `Client.Subscribe` returns the full
list of return codes to the caller, removes from the router every
(distinct) topic filter whose corresponding return code exceeds 2, and
keeps every filter whose return code is at most 2 registered. -/
theorem subscribe_suback_rollback (subs : List (List Char × Nat))
    (topics : List (List Char × Nat)) (codes : List Nat)
    (hnodup : (topics.map Prod.fst).Nodup)
    (hlen : codes.length = topics.length) :
    (clientSubscribe subs topics codes).1 = codes ∧
    (∀ i (hi : i < topics.length) (hic : i < codes.length),
      (2 < codes.get ⟨i, hic⟩ →
        subLookup (clientSubscribe subs topics codes).2
          (topics.get ⟨i, hi⟩).1 = none) ∧
      (codes.get ⟨i, hic⟩ ≤ 2 →
        (subLookup (clientSubscribe subs topics codes).2
          (topics.get ⟨i, hi⟩).1).isSome)) := by
  refine ⟨rfl, fun i hi hic => ⟨fun hgt => ?_, fun hle => ?_⟩⟩
  · apply subLookup_subRollback_none
    left
    refine ⟨(codes.get ⟨i, hic⟩, topics.get ⟨i, hi⟩), ?_, hgt, rfl⟩
    have hz : i < (codes.zip topics).length := by
      rw [List.length_zip]; omega
    have he : (codes.zip topics).get ⟨i, hz⟩ =
        (codes.get ⟨i, hic⟩, topics.get ⟨i, hi⟩) := by
      simp [List.get_eq_getElem, List.getElem_zip]
    rw [← he]
    exact List.get_mem _ _ _
  · show (subLookup (subRollback (subRegister subs topics)
      (codes.zip topics)) (topics.get ⟨i, hi⟩).1).isSome
    rw [subLookup_subRollback_untouched]
    · apply subLookup_subRegister_isSome
      left
      rw [List.mem_map]
      exact ⟨topics.get ⟨i, hi⟩, List.get_mem _ _ _, rfl⟩
    · intro p hp hpn
      rcases List.mem_iff_getElem.mp hp with ⟨j, hj, hpj⟩
      have hjc : j < codes.length := by rw [List.length_zip] at hj; omega
      have hjt : j < topics.length := by rw [List.length_zip] at hj; omega
      have hzj : (codes.zip topics)[j] = (codes[j], topics[j]) :=
        List.getElem_zip
      rw [hzj] at hpj
      have hji : j = i := by
        have hmapj : j < (topics.map Prod.fst).length := by simpa
        have hmapi : i < (topics.map Prod.fst).length := by simpa
        have : (topics.map Prod.fst)[j] = (topics.map Prod.fst)[i] := by
          rw [List.getElem_map, List.getElem_map]
          have : p.2.1 = topics[j].1 := by rw [← hpj]
          rw [← this, hpn]
          simp [List.get_eq_getElem]
        exact (List.Nodup.getElem_inj_iff hnodup).mp this
      have hp1 : p.1 = codes[j] := by rw [← hpj]
      subst hji
      rw [hp1]
      simpa [List.get_eq_getElem] using hle

/-- Witness for C9 mirroring scenario S5: filters `"foo"`, `"foo/bar"`,
`"foo/+/baz"` with return codes `[0, 1, 128]` — the third filter is
removed, the first two stay. -/
theorem subscribe_suback_rollback_witness :
    (clientSubscribe []
      [(['f', 'o', 'o'], 10), (['f', 'o', 'o', '/', 'b'], 11),
       (['f', 'o', 'o', '/', '+'], 12)] [0, 1, 128]).1 = [0, 1, 128] ∧
    subLookup (clientSubscribe []
      [(['f', 'o', 'o'], 10), (['f', 'o', 'o', '/', 'b'], 11),
       (['f', 'o', 'o', '/', '+'], 12)] [0, 1, 128]).2
      ['f', 'o', 'o', '/', '+'] = none ∧
    (subLookup (clientSubscribe []
      [(['f', 'o', 'o'], 10), (['f', 'o', 'o', '/', 'b'], 11),
       (['f', 'o', 'o', '/', '+'], 12)] [0, 1, 128]).2
      ['f', 'o', 'o']).isSome := by
  have h := subscribe_suback_rollback []
    [(['f', 'o', 'o'], 10), (['f', 'o', 'o', '/', 'b'], 11),
     (['f', 'o', 'o', '/', '+'], 12)] [0, 1, 128]
    (by decide) (by decide)
  exact ⟨h.1, (h.2 2 (by decide) (by decide)).1 (by decide),
    (h.2 0 (by decide) (by decide)).2 (by decide)⟩
